import Mathlib

/-!
Shallow embedding, over exact real arithmetic, of the numerical simulation
engines of the Portfolio repository: the Lorenz integrator and the double
pendulum (pendulum.js), the PID controller and rotational plant
(src/unnamed/part_001), the Verlet soft-body solver (src/unnamed/part_002),
and the discrete Fourier transform / epicycle reconstructor (fourier.js).
JavaScript floating-point numbers are idealised as real numbers; the
`Complex` class of fourier.js, whose `add` and `multiply` implement the
standard complex field operations, is idealised as `ℂ`.
-/

noncomputable section

namespace Portfolio

/- ===== Lorenz attractor (pendulum.js, class LorenzSimulation) ===== -/

/-- Numeric state of `LorenzSimulation`: the current point (x, y, z) and the
bounded trail of recent points kept for rendering. -/
structure LorenzState where
  x : ℝ
  y : ℝ
  z : ℝ
  points : List (ℝ × ℝ × ℝ)

/-- The `maxPoints` bound of `LorenzSimulation` (2000). -/
def lorenzMaxPoints : ℕ := 2000

/-- `LorenzSimulation.step(dt)`: explicit Euler step of the Lorenz equations,
then push the new point onto the trail, dropping the oldest point when the
trail exceeds `maxPoints`. -/
def lorenzStep (sigma rho beta : ℝ) (dt : ℝ) (s : LorenzState) : LorenzState :=
  let dx := (sigma * (s.y - s.x)) * dt
  let dy := (s.x * (rho - s.z) - s.y) * dt
  let dz := (s.x * s.y - beta * s.z) * dt
  let x := s.x + dx
  let y := s.y + dy
  let z := s.z + dz
  let ps := s.points ++ [(x, y, z)]
  { x := x, y := y, z := z,
    points := if lorenzMaxPoints < ps.length then ps.tail else ps }

/- ===== PID controller and rotational plant (src/unnamed/part_001) ===== -/

/-- State of the `PID` class: the three gains and the two accumulators. -/
structure PIDState where
  kp : ℝ
  ki : ℝ
  kd : ℝ
  prevError : ℝ
  integral : ℝ

/-- `PID.update(setpoint, processVariable, dt)`: returns the control output
together with the mutated controller state (integral accumulated before the
output is formed, prevError written after). -/
def pidUpdate (st : PIDState) (setpoint processVariable dt : ℝ) : ℝ × PIDState :=
  let error := setpoint - processVariable
  let integral := st.integral + error * dt
  let derivative := (error - st.prevError) / dt
  let output := st.kp * error + st.ki * integral + st.kd * derivative
  (output, { st with integral := integral, prevError := error })

/-- `n` successive calls `pid.update(e, 0, dt)` with a constant first argument,
as the control-loop demo performs them; returns the output of the last call
(0 when no call has been made) together with the final controller state. -/
def pidCalls (e dt : ℝ) (st : PIDState) : ℕ → ℝ × PIDState
  | 0 => (0, st)
  | n + 1 => pidUpdate (pidCalls e dt st n).2 e 0 dt

/-- State of the `RotationalSystem` class. -/
structure RotationalSystem where
  angle : ℝ
  velocity : ℝ
  inertia : ℝ
  damping : ℝ

/-- `RotationalSystem.update(torque, dt)`. -/
def rotationalUpdate (s : RotationalSystem) (torque dt : ℝ) : RotationalSystem :=
  let netTorque := torque - s.damping * s.velocity
  let acceleration := netTorque / s.inertia
  let velocity := s.velocity + acceleration * dt
  { s with velocity := velocity, angle := s.angle + velocity * dt }

/-- The loop `while (error > Math.PI) error -= 2 * Math.PI` from
`PIDSimulation.update`. -/
def wrapDown (e : ℝ) : ℝ :=
  if Real.pi < e then wrapDown (e - 2 * Real.pi) else e
termination_by (⌈(e - Real.pi) / (2 * Real.pi)⌉).toNat
decreasing_by
  have h2pi : (0 : ℝ) < 2 * Real.pi := by positivity
  have hx : (0 : ℝ) < (e - Real.pi) / (2 * Real.pi) := by
    apply div_pos _ h2pi
    linarith
  have hceil : 1 ≤ ⌈(e - Real.pi) / (2 * Real.pi)⌉ := Int.ceil_pos.mpr hx
  have harg : (e - 2 * Real.pi - Real.pi) / (2 * Real.pi)
      = (e - Real.pi) / (2 * Real.pi) - 1 := by
    field_simp
    ring
  rw [harg, Int.ceil_sub_one]
  omega

/-- The loop `while (error < -Math.PI) error += 2 * Math.PI` from
`PIDSimulation.update`. -/
def wrapUp (e : ℝ) : ℝ :=
  if e < -Real.pi then wrapUp (e + 2 * Real.pi) else e
termination_by (⌈(-Real.pi - e) / (2 * Real.pi)⌉).toNat
decreasing_by
  have h2pi : (0 : ℝ) < 2 * Real.pi := by positivity
  have hx : (0 : ℝ) < (-Real.pi - e) / (2 * Real.pi) := by
    apply div_pos _ h2pi
    linarith
  have hceil : 1 ≤ ⌈(-Real.pi - e) / (2 * Real.pi)⌉ := Int.ceil_pos.mpr hx
  have harg : (-Real.pi - (e + 2 * Real.pi)) / (2 * Real.pi)
      = (-Real.pi - e) / (2 * Real.pi) - 1 := by
    field_simp
    ring
  rw [harg, Int.ceil_sub_one]
  omega

/-- The wrapped error computed at the top of `PIDSimulation.update`:
`error = setpoint - system.angle`, then the two wrapping loops in source
order. -/
def wrappedError (setpoint angle : ℝ) : ℝ :=
  wrapUp (wrapDown (setpoint - angle))

/-- The controller invocation of `PIDSimulation.update`: the wrapped error is
fed to the PID as its setpoint input with measured value 0. -/
def pidSimControlOutput (pid : PIDState) (setpoint angle dt : ℝ) : ℝ × PIDState :=
  pidUpdate pid (wrappedError setpoint angle) 0 dt

/- ===== Soft body solver (src/unnamed/part_002) ===== -/

/-- The `Particle` class: current position, previous position (Verlet velocity
proxy), mass, the unused explicit velocity fields, and the pin flag. -/
structure Particle where
  x : ℝ
  y : ℝ
  oldx : ℝ
  oldy : ℝ
  mass : ℝ
  vx : ℝ
  vy : ℝ
  isPinned : Bool

/-- `Particle.update(dt, gravity, friction)`: Verlet integration followed by
the four boundary clamps (floor, right wall, left wall, ceiling) in source
order, each reflecting the implicit velocity damped by `bounce = 0.8`.
Pinned particles are returned unchanged. -/
def particleUpdate (dt gravity friction : ℝ) (p : Particle) : Particle :=
  if p.isPinned then p
  else
    let vx := (p.x - p.oldx) * friction
    let vy := (p.y - p.oldy) * friction
    let oldx := p.x
    let oldy := p.y
    let x := p.x + vx
    let y := p.y + vy + gravity * dt * dt
    let bounce : ℝ := 0.8
    let y1 := if y > 600 - 10 then (600 - 10 : ℝ) else y
    let oldy1 := if y > 600 - 10 then y1 + vy * bounce else oldy
    let x1 := if x > 800 - 10 then (800 - 10 : ℝ) else x
    let oldx1 := if x > 800 - 10 then x1 + vx * bounce else oldx
    let x2 := if x1 < 10 then (10 : ℝ) else x1
    let oldx2 := if x1 < 10 then x2 + vx * bounce else oldx1
    let y2 := if y1 < 10 then (10 : ℝ) else y1
    let oldy2 := if y1 < 10 then y2 + vy * bounce else oldy1
    { p with x := x2, y := y2, oldx := oldx2, oldy := oldy2 }

/-- The distance `dist = Math.sqrt(dx*dx + dy*dy)` between the two endpoints
of a spring, computed in `Spring.update`. -/
def springDist (p1 p2 : Particle) : ℝ :=
  Real.sqrt ((p2.x - p1.x) * (p2.x - p1.x) + (p2.y - p1.y) * (p2.y - p1.y))

/-- `Spring.update()` acting on the two referenced particles: when the current
distance is zero the pass is skipped; otherwise each unpinned endpoint is
displaced by half the correction vector. `restLength` is the spring's `length`
field. -/
def springUpdate (restLength stiffness : ℝ) (p1 p2 : Particle) :
    Particle × Particle :=
  let dx := p2.x - p1.x
  let dy := p2.y - p1.y
  let dist := springDist p1 p2
  if dist = 0 then (p1, p2)
  else
    let diff := (restLength - dist) / dist * stiffness
    let offsetX := dx * diff * 0.5
    let offsetY := dy * diff * 0.5
    let q1 := if p1.isPinned then p1
      else { p1 with x := p1.x - offsetX, y := p1.y - offsetY }
    let q2 := if p2.isPinned then p2
      else { p2 with x := p2.x + offsetX, y := p2.y + offsetY }
    (q1, q2)

/-- A spring of the solver: indices of its two endpoint particles in the
particle arena (the JS object holds live references), the shared stiffness,
and the rest length fixed at construction. -/
structure Spring where
  p1 : ℕ
  p2 : ℕ
  stiffness : ℝ
  length : ℝ

/-- One `s.update()` call of the relaxation loop, acting on the particle
arena: read both endpoints, apply `springUpdate`, write both back. -/
def springApply (ps : List Particle) (s : Spring) : List Particle :=
  match ps[s.p1]?, ps[s.p2]? with
  | some q1, some q2 =>
      let r := springUpdate s.length s.stiffness q1 q2
      (ps.set s.p1 r.1).set s.p2 r.2
  | _, _ => ps

/-- One pass of `for (let s of this.springs) s.update()`. -/
def relaxPass (springs : List Spring) (ps : List Particle) : List Particle :=
  springs.foldl springApply ps

/-- `iterations` passes of the constraint-relaxation loop. -/
def relaxIter (springs : List Spring) : ℕ → List Particle → List Particle
  | 0, ps => ps
  | n + 1, ps => relaxIter springs n (relaxPass springs ps)

/-- State of `SoftBodySimulation` relevant to the solver tick. -/
structure SoftBody where
  particles : List Particle
  springs : List Spring
  gravity : ℝ
  friction : ℝ
  iterations : ℕ

/-- `SoftBodySimulation.update(dt)`: one integration pass over all particles,
then `iterations` (5 in the source) relaxation passes over all springs. -/
def softBodyUpdate (b : SoftBody) (dt : ℝ) : SoftBody :=
  let integrated := b.particles.map (particleUpdate dt b.gravity b.friction)
  { b with particles := relaxIter b.springs b.iterations integrated }

/- ===== Double pendulum (pendulum.js) ===== -/

/-- `DoublePendulum.derivatives(state)` of the RK4 variant: given the state
(a1, a1_v, a2, a2_v), returns (a1_v, a1_a, a2_v, a2_a) from the closed-form
equations of motion. -/
def derivatives (m1 m2 l1 l2 g a1 a1_v a2 a2_v : ℝ) : ℝ × ℝ × ℝ × ℝ :=
  let delta := a2 - a1
  let den1 := (m1 + m2) * l1 - m2 * l1 * Real.cos delta * Real.cos delta
  let den2 := (l2 / l1) * den1
  let a1_a := (m2 * l1 * a1_v * a1_v * Real.sin delta * Real.cos delta +
      m2 * g * Real.sin a2 * Real.cos delta +
      m2 * l2 * a2_v * a2_v * Real.sin delta -
      (m1 + m2) * g * Real.sin a1) / den1
  let a2_a := (-m2 * l2 * a2_v * a2_v * Real.sin delta * Real.cos delta +
      (m1 + m2) * g * Real.sin a1 * Real.cos delta -
      (m1 + m2) * l1 * a1_v * a1_v * Real.sin delta -
      (m1 + m2) * g * Real.sin a2) / den2
  (a1_v, a1_a, a2_v, a2_a)

/-- The first angular acceleration computed inside `DoublePendulum.update` of
the Euler+damping variant, with its source grouping. -/
def eulerA1Acc (m1 m2 l1 l2 g a1 a1_v a2 a2_v : ℝ) : ℝ :=
  let num1 := -g * (2 * m1 + m2) * Real.sin a1
  let num2 := -m2 * g * Real.sin (a1 - 2 * a2)
  let num3 := -2 * Real.sin (a1 - a2) * m2
  let num4 := a2_v * a2_v * l2 + a1_v * a1_v * l1 * Real.cos (a1 - a2)
  let den := l1 * (2 * m1 + m2 - m2 * Real.cos (2 * a1 - 2 * a2))
  (num1 + num2 + num3 * num4) / den

/-- The second angular acceleration computed inside `DoublePendulum.update` of
the Euler+damping variant, with its source grouping. -/
def eulerA2Acc (m1 m2 l1 l2 g a1 a1_v a2 a2_v : ℝ) : ℝ :=
  let num1_2 := 2 * Real.sin (a1 - a2)
  let num2_2 := a1_v * a1_v * l1 * (m1 + m2)
  let num3_2 := g * (m1 + m2) * Real.cos a1
  let num4_2 := a2_v * a2_v * l2 * m2 * Real.cos (a1 - a2)
  let den_2 := l2 * (2 * m1 + m2 - m2 * Real.cos (2 * a1 - 2 * a2))
  num1_2 * (num2_2 + num3_2 + num4_2) / den_2

/-- The state update of the Euler+damping variant of `DoublePendulum.update`:
one explicit Euler step with the 20x speed factor, then the 0.999 damping of
both velocities. Returns (a1, a1_v, a2, a2_v). -/
def eulerUpdate (m1 m2 l1 l2 g dt a1 a1_v a2 a2_v : ℝ) : ℝ × ℝ × ℝ × ℝ :=
  let a1_a := eulerA1Acc m1 m2 l1 l2 g a1 a1_v a2 a2_v
  let a2_a := eulerA2Acc m1 m2 l1 l2 g a1 a1_v a2 a2_v
  let a1_v' := a1_v + a1_a * dt * 20
  let a2_v' := a2_v + a2_a * dt * 20
  let a1' := a1 + a1_v' * dt * 20
  let a2' := a2 + a2_v' * dt * 20
  (a1', a1_v' * 0.999, a2', a2_v' * 0.999)

/- ===== Fourier drawing (fourier.js) ===== -/

/-- One addend of the inner loop of `FourierSimulation.dft`:
`x[n].multiply(new Complex(Math.cos(phi), -Math.sin(phi)))` with
`phi = (Math.PI * 2 * k * n) / N`. -/
def dftTerm (x : List ℂ) (k n : ℕ) : ℂ :=
  let phi := Real.pi * 2 * k * n / x.length
  x.getD n 0 * Complex.mk (Real.cos phi) (-Real.sin phi)

/-- The accumulated `sum` of `FourierSimulation.dft` before normalisation. -/
def dftSum (x : List ℂ) (k : ℕ) : ℂ :=
  ∑ n ∈ Finset.range x.length, dftTerm x k n

/-- The normalised bin value: `sum.re / N` and `sum.im / N`, componentwise as
in the source. -/
def dftCoeff (x : List ℂ) (k : ℕ) : ℂ :=
  let s := dftSum x k
  Complex.mk (s.re / x.length) (s.im / x.length)

/-- One element of the array returned by `FourierSimulation.dft`:
`{ re, im, freq, amp, phase }`, with `amp = Math.sqrt(re*re + im*im)` and
`phase = Math.atan2(im, re)`. `Math.atan2(im, re)` is exactly `Complex.arg`
of the complex number with real part `re` and imaginary part `im` (both have
range (-pi, pi], value pi on the negative real axis and 0 at the origin). -/
structure FourierComponent where
  re : ℝ
  im : ℝ
  freq : ℕ
  amp : ℝ
  phase : ℝ

/-- The record built for bin `k` in `FourierSimulation.dft`. -/
def dftEntry (x : List ℂ) (k : ℕ) : FourierComponent :=
  let s := dftCoeff x k
  { re := s.re, im := s.im, freq := k,
    amp := Real.sqrt (s.re * s.re + s.im * s.im),
    phase := Complex.arg s }

/-- `FourierSimulation.dft(x)`: the list of spectral components for
`k = 0 .. N-1`. -/
def dft (x : List ℂ) : List FourierComponent :=
  (List.range x.length).map (dftEntry x)

/-- One iteration of the loop in `FourierSimulation.drawEpicycles`: advance the
running tip by `radius * (cos, sin)(freq * time + phase + rotation)`. -/
def epicycleStep (time rot : ℝ) (p : ℝ × ℝ) (c : FourierComponent) : ℝ × ℝ :=
  (p.1 + c.amp * Real.cos (c.freq * time + c.phase + rot),
   p.2 + c.amp * Real.sin (c.freq * time + c.phase + rot))

/-- `FourierSimulation.drawEpicycles(x, y, rotation, fourier)` stripped of its
canvas drawing: the final tip position returned to the caller. -/
def drawEpicycles (x y rot : ℝ) (fourier : List FourierComponent)
    (time : ℝ) : ℝ × ℝ :=
  fourier.foldl (epicycleStep time rot) (x, y)

/-- The engine states of `FourierSimulation`. -/
inductive FState where
  | IDLE : FState
  | DRAWING : FState
  | COMPUTING : FState
  | ANIMATING : FState
deriving DecidableEq

/-- The fields of `FourierSimulation` involved in `finishDrawing`. -/
structure FourierSim where
  state : FState
  drawing : List (ℝ × ℝ)
  fourierX : List FourierComponent

/-- `FourierSimulation.finishDrawing()`: only acts in the DRAWING state; with
`drawing.length > 5` it moves to COMPUTING (scheduling the transform),
otherwise back to IDLE. The transform itself runs later, from the COMPUTING
state; `finishDrawing` never touches `fourierX`. -/
def finishDrawing (s : FourierSim) : FourierSim :=
  if s.state = FState.DRAWING then
    if 5 < s.drawing.length then { s with state := FState.COMPUTING }
    else { s with state := FState.IDLE }
  else s

/- ===================== Theorems ===================== -/

/-- Claim C4: `LorenzSimulation.step` updates the state to exactly
`(x + sigma*(y-x)*dt, y + (x*(rho-z)-y)*dt, z + (x*y-beta*z)*dt)`, all three
increments computed from the pre-step values; the step is total (it is a plain
Lean function with no side conditions). -/
theorem lorenz_step_formula (sigma rho beta dt : ℝ) (s : LorenzState) :
    (lorenzStep sigma rho beta dt s).x = s.x + sigma * (s.y - s.x) * dt ∧
    (lorenzStep sigma rho beta dt s).y = s.y + (s.x * (rho - s.z) - s.y) * dt ∧
    (lorenzStep sigma rho beta dt s).z = s.z + (s.x * s.y - beta * s.z) * dt := by
  refine ⟨?_, ?_, ?_⟩ <;> simp [lorenzStep]

/-- Claim C8: in the DRAWING state, `finishDrawing` moves to COMPUTING exactly
when at least 6 points were collected, moves back to IDLE exactly when fewer
than 6 were, and never computes a transform itself (`fourierX` untouched). -/
theorem finish_drawing_gate (s : FourierSim) (hs : s.state = FState.DRAWING) :
    ((finishDrawing s).state = FState.COMPUTING ↔ 6 ≤ s.drawing.length) ∧
    ((finishDrawing s).state = FState.IDLE ↔ s.drawing.length < 6) ∧
    (finishDrawing s).fourierX = s.fourierX := by
  unfold finishDrawing
  rw [if_pos hs]
  by_cases h : 5 < s.drawing.length
  · rw [if_pos h]
    refine ⟨?_, ?_, rfl⟩
    · constructor
      · intro _
        omega
      · intro _
        rfl
    · constructor
      · intro hcon
        simp at hcon
      · intro hlt
        exact absurd hlt (by omega)
  · rw [if_neg h]
    refine ⟨?_, ?_, rfl⟩
    · constructor
      · intro hcon
        simp at hcon
      · intro hle
        exact absurd hle (by omega)
    · constructor
      · intro _
        omega
      · intro _
        rfl

/-- Witness for C8: with only 3 collected points, finishing a drawing does not
reach the COMPUTING state. -/
theorem finish_drawing_gate_witness :
    (finishDrawing ⟨FState.DRAWING, [(0, 0), (0, 0), (0, 0)], []⟩).state
        = FState.COMPUTING
      ↔ 6 ≤ ([((0:ℝ), (0:ℝ)), (0, 0), (0, 0)] : List (ℝ × ℝ)).length :=
  (finish_drawing_gate ⟨FState.DRAWING, [(0, 0), (0, 0), (0, 0)], []⟩ rfl).1

/-- Claim C9: when the two endpoints of a spring coincide, `Spring.update`
skips the correction for that pass: no division is performed and both
particles are returned unchanged (the embedding is a total function). -/
theorem spring_coincident_skip (restLength stiffness : ℝ) (p1 p2 : Particle)
    (hx : p2.x = p1.x) (hy : p2.y = p1.y) :
    springUpdate restLength stiffness p1 p2 = (p1, p2) := by
  unfold springUpdate springDist
  rw [hx, hy]
  simp

/-- Witness for C9: two coincident particles are left exactly where they are. -/
theorem spring_coincident_skip_witness :
    springUpdate 60 0.5 ⟨5, 5, 5, 5, 1, 0, 0, false⟩ ⟨5, 5, 4, 4, 1, 0, 0, false⟩
      = (⟨5, 5, 5, 5, 1, 0, 0, false⟩, ⟨5, 5, 4, 4, 1, 0, 0, false⟩) :=
  spring_coincident_skip 60 0.5 _ _ rfl rfl

/-- After `n` calls `update(e, 0, dt)` starting from reset accumulators with
gains (0, ki, 0), the controller state still has gains (0, ki, 0) and its
integral accumulator holds `n * e * dt`. -/
theorem pidCalls_state_closed (ki e dt : ℝ) (n : ℕ) :
    ((pidCalls e dt ⟨0, ki, 0, 0, 0⟩ n).2).kp = 0 ∧
    ((pidCalls e dt ⟨0, ki, 0, 0, 0⟩ n).2).ki = ki ∧
    ((pidCalls e dt ⟨0, ki, 0, 0, 0⟩ n).2).kd = 0 ∧
    ((pidCalls e dt ⟨0, ki, 0, 0, 0⟩ n).2).integral = n * e * dt := by
  induction n with
  | zero => simp [pidCalls]
  | succ m ih =>
    obtain ⟨h1, h2, h3, h4⟩ := ih
    refine ⟨?_, ?_, ?_, ?_⟩
    · simp [pidCalls, pidUpdate, h1]
    · simp [pidCalls, pidUpdate, h2]
    · simp [pidCalls, pidUpdate, h3]
    · simp [pidCalls, pidUpdate, h4]
      ring

/-- Claim C5: starting from freshly reset accumulators with gains
`kp = 0, kd = 0, ki > 0`, calling `update` with constant error `e`
(setpoint = e, measured = 0) `n` times with step `dt > 0` returns
`ki * e * n * dt` on the n-th call. -/
theorem pid_integral_accumulation (ki e dt : ℝ) (n : ℕ)
    (hki : 0 < ki) (hdt : 0 < dt) (hn : 1 ≤ n) :
    (pidCalls e dt ⟨0, ki, 0, 0, 0⟩ n).1 = ki * e * n * dt := by
  obtain ⟨m, rfl⟩ : ∃ m, n = m + 1 := ⟨n - 1, by omega⟩
  obtain ⟨h1, h2, h3, h4⟩ := pidCalls_state_closed ki e dt m
  simp [pidCalls, pidUpdate, h1, h2, h3, h4]
  ring

/-- Witness for C5: with ki = 1, e = 2, dt = 3, one call returns
1 * 2 * 1 * 3. -/
theorem pid_integral_accumulation_witness :
    (0:ℝ) < 1 ∧ (0:ℝ) < 3 ∧ 1 ≤ 1 ∧
      (pidCalls 2 3 ⟨0, 1, 0, 0, 0⟩ 1).1 = 1 * 2 * ((1:ℕ) : ℝ) * 3 :=
  ⟨by norm_num, by norm_num, le_refl 1,
    pid_integral_accumulation 1 2 3 1 (by norm_num) (by norm_num) (le_refl 1)⟩

/-- Claim C2 (amended): on a pass over a spring with nonzero current length,
writing `corr = (restLength - currentLength)/currentLength * stiffness` for
the source's `diff` factor, every free endpoint is displaced by exactly half
of the correction vector `(dx, dy) * corr` (p1 by minus half, p2 by plus
half), and a pinned endpoint is left untouched. In particular, when both
endpoints are free the correction is split 50/50, and when exactly one
endpoint is pinned the free endpoint still receives only half of the total
correction — the pinned endpoint's half is dropped, not transferred. -/
theorem spring_correction_split (restLength stiffness : ℝ) (p1 p2 : Particle)
    (hd : springDist p1 p2 ≠ 0) :
    (p1.isPinned = false →
      p1.x - (springUpdate restLength stiffness p1 p2).1.x
          = (p2.x - p1.x)
              * ((restLength - springDist p1 p2) / springDist p1 p2 * stiffness)
              * 0.5
        ∧ p1.y - (springUpdate restLength stiffness p1 p2).1.y
          = (p2.y - p1.y)
              * ((restLength - springDist p1 p2) / springDist p1 p2 * stiffness)
              * 0.5) ∧
    (p2.isPinned = false →
      (springUpdate restLength stiffness p1 p2).2.x - p2.x
          = (p2.x - p1.x)
              * ((restLength - springDist p1 p2) / springDist p1 p2 * stiffness)
              * 0.5
        ∧ (springUpdate restLength stiffness p1 p2).2.y - p2.y
          = (p2.y - p1.y)
              * ((restLength - springDist p1 p2) / springDist p1 p2 * stiffness)
              * 0.5) ∧
    (p1.isPinned = true → (springUpdate restLength stiffness p1 p2).1 = p1) ∧
    (p2.isPinned = true → (springUpdate restLength stiffness p1 p2).2 = p2) := by
  unfold springUpdate
  rw [if_neg hd]
  refine ⟨?_, ?_, ?_, ?_⟩
  · intro h1
    simp only [h1, Bool.false_eq_true, if_false]
    constructor <;> ring
  · intro h2
    simp only [h2, Bool.false_eq_true, if_false]
    constructor <;> ring
  · intro h1
    simp only [h1, if_true]
  · intro h2
    simp only [h2, if_true]

/-- Counterexample for C2 as stated: rest length 10, stiffness 1, p1 pinned at
(0,0), p2 free at (3,4). The current length is 5 and the correction factor is
(10-5)/5*1 = 1, so applying the entire correction to the free endpoint would
move p2.x from 3 to 3 + 3*1 = 6; the code moves it by only half, to 4.5. -/
theorem spring_pinned_full_correction_counterexample :
    (springUpdate 10 1 ⟨0, 0, 0, 0, 1, 0, 0, true⟩
        ⟨3, 4, 3, 4, 1, 0, 0, false⟩).2.x = 4.5 ∧
    (springUpdate 10 1 ⟨0, 0, 0, 0, 1, 0, 0, true⟩
        ⟨3, 4, 3, 4, 1, 0, 0, false⟩).2.x ≠ 6 := by
  have hdist : springDist ⟨0, 0, 0, 0, 1, 0, 0, true⟩ ⟨3, 4, 3, 4, 1, 0, 0, false⟩
      = 5 := by
    unfold springDist
    norm_num
    rw [show (25:ℝ) = 5 ^ 2 by norm_num]
    exact Real.sqrt_sq (by norm_num)
  constructor
  · unfold springUpdate
    rw [hdist]
    norm_num
  · unfold springUpdate
    rw [hdist]
    norm_num

/-- Witness for the amended C2: in the pinned-p1 configuration of the
counterexample, the pinned endpoint is returned unchanged. -/
theorem spring_correction_split_witness :
    (springUpdate 10 1 ⟨0, 0, 0, 0, 1, 0, 0, true⟩
        ⟨3, 4, 3, 4, 1, 0, 0, false⟩).1 = ⟨0, 0, 0, 0, 1, 0, 0, true⟩ := by
  have hdist : springDist ⟨0, 0, 0, 0, 1, 0, 0, true⟩ ⟨3, 4, 3, 4, 1, 0, 0, false⟩
      = 5 := by
    unfold springDist
    norm_num
    rw [show (25:ℝ) = 5 ^ 2 by norm_num]
    exact Real.sqrt_sq (by norm_num)
  exact (spring_correction_split 10 1 _ _ (by rw [hdist]; norm_num)).2.2.1 rfl

/-- Claim C6: one `Particle.update` call on any unpinned particle leaves its y
coordinate at most 590 (floor 600 minus the clamp margin 10), and whenever the
floor clamp fires the post-step implicit velocity `y - oldy` is exactly -0.8
times the pre-contact implicit velocity `vy = (y - oldy) * friction` used by
the step. -/
theorem particle_floor_reflection (dt gravity friction : ℝ) (p : Particle)
    (hp : p.isPinned = false) :
    (particleUpdate dt gravity friction p).y ≤ 590 ∧
    (p.y + (p.y - p.oldy) * friction + gravity * dt * dt > 590 →
      (particleUpdate dt gravity friction p).y = 590 ∧
      (particleUpdate dt gravity friction p).y
          - (particleUpdate dt gravity friction p).oldy
        = -(0.8 * ((p.y - p.oldy) * friction))) := by
  unfold particleUpdate
  rw [if_neg (by simp [hp])]
  constructor
  · dsimp only
    split_ifs <;> linarith
  · intro hfire
    dsimp only
    split_ifs
    all_goals try (exfalso; linarith)
    constructor
    · norm_num
    · ring

/-- Witness for C6: a particle at rest at y = 600 with gravity 100, dt = 1,
friction 1 integrates to y = 700, the floor clamp fires, and it ends at
y = 590 with zero reflected velocity (its pre-contact vy is 0). -/
theorem particle_floor_reflection_witness :
    (particleUpdate 1 100 1 ⟨400, 600, 400, 600, 1, 0, 0, false⟩).y = 590 ∧
    (particleUpdate 1 100 1 ⟨400, 600, 400, 600, 1, 0, 0, false⟩).y
        - (particleUpdate 1 100 1 ⟨400, 600, 400, 600, 1, 0, 0, false⟩).oldy
      = -(0.8 * ((600 - 600) * 1)) :=
  (particle_floor_reflection 1 100 1 ⟨400, 600, 400, 600, 1, 0, 0, false⟩ rfl).2
    (by norm_num)

/-- The first wrapping loop only ever lowers the error until it is at most pi:
its result is always at most pi. -/
theorem wrapDown_le (e : ℝ) : wrapDown e ≤ Real.pi := by
  induction e using wrapDown.induct with
  | case1 e h ih =>
    rw [wrapDown, if_pos h]
    exact ih
  | case2 e h =>
    rw [wrapDown, if_neg h]
    exact le_of_not_lt h

/-- The second wrapping loop stops as soon as the value is at least -pi. -/
theorem wrapUp_ge (e : ℝ) : -Real.pi ≤ wrapUp e := by
  induction e using wrapUp.induct with
  | case1 e h ih =>
    rw [wrapUp, if_pos h]
    exact ih
  | case2 e h =>
    rw [wrapUp, if_neg h]
    exact le_of_not_lt h

/-- The second wrapping loop never pushes a value that is at most pi above
pi: each executed iteration starts below -pi and so lands below pi. -/
theorem wrapUp_le (e : ℝ) (he : e ≤ Real.pi) : wrapUp e ≤ Real.pi := by
  induction e using wrapUp.induct with
  | case1 e h ih =>
    rw [wrapUp, if_pos h]
    exact ih (by linarith)
  | case2 e h =>
    rw [wrapUp, if_neg h]
    exact he

/-- Claim C7 (amended): the wrapped error value that `PIDSimulation.update`
passes to the PID as its setpoint input lies in the closed interval
[-pi, pi]; the left endpoint -pi is attainable (see the counterexample), so
the interval is closed, not half-open. -/
theorem wrapped_error_bounds (setpoint angle : ℝ) :
    -Real.pi ≤ wrappedError setpoint angle ∧
      wrappedError setpoint angle ≤ Real.pi :=
  ⟨wrapUp_ge _, wrapUp_le _ (wrapDown_le _)⟩

/-- Counterexample for C7 as stated: with setpoint 0 and plant angle pi the
wrapped error is exactly -pi, which does not lie in the half-open interval
(-pi, pi]. -/
theorem wrapped_error_boundary_counterexample :
    wrappedError 0 Real.pi = -Real.pi ∧
      ¬ (-Real.pi < wrappedError 0 Real.pi) := by
  have h1 : wrapDown (0 - Real.pi) = -Real.pi := by
    rw [wrapDown, if_neg (by linarith [Real.pi_pos])]
    ring
  have h2 : wrapUp (-Real.pi) = -Real.pi := by
    rw [wrapUp, if_neg (lt_irrefl _)]
  have hval : wrappedError 0 Real.pi = -Real.pi := by
    unfold wrappedError
    rw [h1, h2]
  refine ⟨hval, ?_⟩
  rw [hval]
  exact lt_irrefl _

/-- Double-angle reduction of the `cos(2*a1 - 2*a2)` appearing in the Euler
variant's denominators, in terms of the RK4 variant's `cos(delta)`. -/
theorem pendulum_cos_double (a1 a2 : ℝ) :
    Real.cos (2 * a1 - 2 * a2) = 2 * Real.cos (a2 - a1) ^ 2 - 1 := by
  rw [show 2 * a1 - 2 * a2 = 2 * (a1 - a2) by ring, Real.cos_two_mul,
    show a1 - a2 = -(a2 - a1) by ring, Real.cos_neg]

/-- The Euler variant's first-acceleration numerator is exactly twice the RK4
variant's first-acceleration numerator. -/
theorem pendulum_num1_eq (m1 m2 l1 l2 g a1 a1_v a2 a2_v : ℝ) :
    -g * (2 * m1 + m2) * Real.sin a1 + -m2 * g * Real.sin (a1 - 2 * a2)
        + -2 * Real.sin (a1 - a2) * m2
          * (a2_v * a2_v * l2 + a1_v * a1_v * l1 * Real.cos (a1 - a2))
      = 2 * (m2 * l1 * a1_v * a1_v * Real.sin (a2 - a1) * Real.cos (a2 - a1)
          + m2 * g * Real.sin a2 * Real.cos (a2 - a1)
          + m2 * l2 * a2_v * a2_v * Real.sin (a2 - a1)
          - (m1 + m2) * g * Real.sin a1) := by
  rw [Real.sin_sub a1 (2 * a2), Real.cos_two_mul, Real.sin_two_mul,
    Real.sin_sub a1 a2, Real.cos_sub a1 a2, Real.sin_sub a2 a1, Real.cos_sub a2 a1]
  linear_combination (-2 * m2 * g * Real.sin a1) * Real.sin_sq_add_cos_sq a2

/-- The Euler variant's second-acceleration numerator is exactly twice the RK4
variant's second-acceleration numerator. -/
theorem pendulum_num2_eq (m1 m2 l1 l2 g a1 a1_v a2 a2_v : ℝ) :
    2 * Real.sin (a1 - a2)
        * (a1_v * a1_v * l1 * (m1 + m2) + g * (m1 + m2) * Real.cos a1
          + a2_v * a2_v * l2 * m2 * Real.cos (a1 - a2))
      = 2 * (-m2 * l2 * a2_v * a2_v * Real.sin (a2 - a1) * Real.cos (a2 - a1)
          + (m1 + m2) * g * Real.sin a1 * Real.cos (a2 - a1)
          - (m1 + m2) * l1 * a1_v * a1_v * Real.sin (a2 - a1)
          - (m1 + m2) * g * Real.sin a2) := by
  rw [Real.sin_sub a1 a2, Real.cos_sub a1 a2, Real.sin_sub a2 a1, Real.cos_sub a2 a1]
  linear_combination (-2 * (m1 + m2) * g * Real.sin a2) * Real.sin_sq_add_cos_sq a1

/-- Claim C3: for every state and parameter set for which the denominators are
nonzero (den1 nonzero — which forces l1 nonzero — and l2 nonzero), the angular
accelerations computed inside the Euler variant's `update` agree with those
returned by the RK4 variant's `derivatives`: the two algebraic groupings are
equal as real-valued functions. -/
theorem pendulum_variants_agree (m1 m2 l1 l2 g a1 a1_v a2 a2_v : ℝ)
    (hden1 : (m1 + m2) * l1
        - m2 * l1 * Real.cos (a2 - a1) * Real.cos (a2 - a1) ≠ 0)
    (hl2 : l2 ≠ 0) :
    eulerA1Acc m1 m2 l1 l2 g a1 a1_v a2 a2_v
        = (derivatives m1 m2 l1 l2 g a1 a1_v a2 a2_v).2.1 ∧
    eulerA2Acc m1 m2 l1 l2 g a1 a1_v a2 a2_v
        = (derivatives m1 m2 l1 l2 g a1 a1_v a2 a2_v).2.2.2 := by
  have hl1 : l1 ≠ 0 := by
    intro h
    apply hden1
    rw [h]
    ring
  constructor
  · unfold eulerA1Acc derivatives
    dsimp only
    have hden : l1 * (2 * m1 + m2 - m2 * Real.cos (2 * a1 - 2 * a2))
        = 2 * ((m1 + m2) * l1
            - m2 * l1 * Real.cos (a2 - a1) * Real.cos (a2 - a1)) := by
      rw [pendulum_cos_double a1 a2]
      ring
    rw [hden, pendulum_num1_eq, mul_div_mul_left _ _ (by norm_num : (2:ℝ) ≠ 0)]
  · unfold eulerA2Acc derivatives
    dsimp only
    have hd2 : l2 / l1 * ((m1 + m2) * l1
          - m2 * l1 * Real.cos (a2 - a1) * Real.cos (a2 - a1))
        = l2 * ((m1 + m2) - m2 * (Real.cos (a2 - a1) * Real.cos (a2 - a1))) := by
      field_simp
      ring
    have hden : l2 * (2 * m1 + m2 - m2 * Real.cos (2 * a1 - 2 * a2))
        = 2 * (l2 * ((m1 + m2)
            - m2 * (Real.cos (a2 - a1) * Real.cos (a2 - a1)))) := by
      rw [pendulum_cos_double a1 a2]
      ring
    rw [hden, hd2, pendulum_num2_eq, mul_div_mul_left _ _ (by norm_num : (2:ℝ) ≠ 0)]

/-- Witness for C3: at unit masses, unit lengths, unit gravity and the zero
state, den1 evaluates to 1 and both variants' accelerations coincide. -/
theorem pendulum_variants_agree_witness :
    eulerA1Acc 1 1 1 1 1 0 0 0 0 = (derivatives 1 1 1 1 1 0 0 0 0).2.1 ∧
    eulerA2Acc 1 1 1 1 1 0 0 0 0 = (derivatives 1 1 1 1 1 0 0 0 0).2.2.2 :=
  pendulum_variants_agree 1 1 1 1 1 0 0 0 0
    (by norm_num [Real.cos_zero]) (by norm_num)

/-- A pinned first endpoint is never moved by `Spring.update`. -/
theorem springUpdate_pinned_fst (restLength stiffness : ℝ) (p1 p2 : Particle)
    (hp : p1.isPinned = true) :
    (springUpdate restLength stiffness p1 p2).1 = p1 := by
  unfold springUpdate
  by_cases h : springDist p1 p2 = 0
  · rw [if_pos h]
  · rw [if_neg h]
    dsimp only
    rw [if_pos hp]

/-- A pinned second endpoint is never moved by `Spring.update`. -/
theorem springUpdate_pinned_snd (restLength stiffness : ℝ) (p1 p2 : Particle)
    (hp : p2.isPinned = true) :
    (springUpdate restLength stiffness p1 p2).2 = p2 := by
  unfold springUpdate
  by_cases h : springDist p1 p2 = 0
  · rw [if_pos h]
  · rw [if_neg h]
    dsimp only
    rw [if_pos hp]

/-- One spring relaxation step leaves every pinned particle of the arena in
place. -/
theorem springApply_pinned (ps : List Particle) (s : Spring) (i : ℕ)
    (p : Particle) (hi : ps[i]? = some p) (hp : p.isPinned = true) :
    (springApply ps s)[i]? = some p := by
  unfold springApply
  cases h1 : ps[s.p1]? with
  | none => exact hi
  | some q1 =>
    cases h2 : ps[s.p2]? with
    | none => exact hi
    | some q2 =>
      dsimp only
      by_cases hj2 : i = s.p2
      · rw [hj2]
        have hlen : s.p2 < ps.length := by
          by_contra hc
          rw [List.getElem?_eq_none (by omega)] at h2
          cases h2
        have hq2 : q2 = p := by
          rw [← hj2, hi] at h2
          exact (Option.some.inj h2).symm
        rw [List.getElem?_set_self (by simpa using hlen)]
        rw [springUpdate_pinned_snd _ _ _ _ (by rw [hq2]; exact hp), hq2]
      · by_cases hj1 : i = s.p1
        · rw [hj1]
          have hlen : s.p1 < ps.length := by
            by_contra hc
            rw [List.getElem?_eq_none (by omega)] at h1
            cases h1
          have hq1 : q1 = p := by
            rw [← hj1, hi] at h1
            exact (Option.some.inj h1).symm
          rw [List.getElem?_set_ne (by omega), List.getElem?_set_self hlen]
          rw [springUpdate_pinned_fst _ _ _ _ (by rw [hq1]; exact hp), hq1]
        · rw [List.getElem?_set_ne (by omega), List.getElem?_set_ne (by omega)]
          exact hi

/-- One full pass over all springs leaves every pinned particle in place. -/
theorem relaxPass_pinned (springs : List Spring) (ps : List Particle) (i : ℕ)
    (p : Particle) (hi : ps[i]? = some p) (hp : p.isPinned = true) :
    (relaxPass springs ps)[i]? = some p := by
  induction springs generalizing ps with
  | nil => exact hi
  | cons s rest ih => exact ih _ (springApply_pinned ps s i p hi hp)

/-- Any number of relaxation passes leaves every pinned particle in place. -/
theorem relaxIter_pinned (springs : List Spring) (n : ℕ) (ps : List Particle)
    (i : ℕ) (p : Particle) (hi : ps[i]? = some p) (hp : p.isPinned = true) :
    (relaxIter springs n ps)[i]? = some p := by
  induction n generalizing ps with
  | zero => exact hi
  | succ m ih => exact ih _ (relaxPass_pinned springs ps i p hi hp)

/-- `Particle.update` returns a pinned particle unchanged. -/
theorem particleUpdate_pinned (dt gravity friction : ℝ) (p : Particle)
    (hp : p.isPinned = true) : particleUpdate dt gravity friction p = p := by
  unfold particleUpdate
  rw [if_pos hp]

/-- Claim C10: one full solver tick — the integration pass over all particles
followed by all constraint-relaxation passes over all springs — leaves every
pinned particle (its x, y, oldx, oldy and all other fields) unchanged; in
particular `Spring.update` on a spring whose two endpoints are both pinned
changes no state at all. -/
theorem pinned_particle_frame (b : SoftBody) (dt : ℝ) (i : ℕ) (p : Particle)
    (hi : b.particles[i]? = some p) (hp : p.isPinned = true) :
    (softBodyUpdate b dt).particles[i]? = some p ∧
    ∀ restLength stiffness : ℝ, ∀ q1 q2 : Particle,
      q1.isPinned = true → q2.isPinned = true →
        springUpdate restLength stiffness q1 q2 = (q1, q2) := by
  constructor
  · unfold softBodyUpdate
    dsimp only
    have hmap : (b.particles.map (particleUpdate dt b.gravity b.friction))[i]?
        = some p := by
      rw [List.getElem?_map, hi, Option.map_some',
        particleUpdate_pinned _ _ _ _ hp]
    exact relaxIter_pinned _ _ _ _ _ hmap hp
  · intro restLength stiffness q1 q2 h1 h2
    have hf := springUpdate_pinned_fst restLength stiffness q1 q2 h1
    have hs := springUpdate_pinned_snd restLength stiffness q1 q2 h2
    exact Prod.ext hf hs

/-- Witness for C10: a two-particle body with one spring and the source's
parameters (gravity 500, friction 0.99, 5 iterations, dt = 0.016) keeps its
pinned particle exactly in place over a full tick. -/
theorem pinned_particle_frame_witness :
    (softBodyUpdate ⟨[⟨100, 100, 100, 100, 1, 0, 0, true⟩,
          ⟨160, 100, 160, 100, 1, 0, 0, false⟩],
        [⟨0, 1, 0.5, 60⟩], 500, 0.99, 5⟩ 0.016).particles[0]?
      = some ⟨100, 100, 100, 100, 1, 0, 0, true⟩ :=
  (pinned_particle_frame
    ⟨[⟨100, 100, 100, 100, 1, 0, 0, true⟩, ⟨160, 100, 160, 100, 1, 0, 0, false⟩],
      [⟨0, 1, 0.5, 60⟩], 500, 0.99, 5⟩ 0.016 0
    ⟨100, 100, 100, 100, 1, 0, 0, true⟩ rfl rfl).1

/-- The factor `new Complex(Math.cos(phi), -Math.sin(phi))` of the DFT inner
loop is the complex exponential of `-phi * i`. -/
theorem mk_cos_neg_sin (phi : ℝ) :
    Complex.mk (Real.cos phi) (-Real.sin phi)
      = Complex.exp (-(phi : ℂ) * Complex.I) := by
  have harg : -(phi : ℂ) * Complex.I = ((-phi : ℝ) : ℂ) * Complex.I := by
    push_cast
    ring
  rw [harg]
  apply Complex.ext
  · rw [Complex.exp_ofReal_mul_I_re, Real.cos_neg]
  · rw [Complex.exp_ofReal_mul_I_im, Real.sin_neg]

/-- `amp * e^(i*phase)` restores the original complex bin value: the source's
`amp = sqrt(re*re + im*im)` is the complex absolute value and its
`phase = atan2(im, re)` is the complex argument. -/
theorem amp_phase_restore (z : ℂ) :
    (Real.sqrt (z.re * z.re + z.im * z.im) : ℂ)
        * Complex.exp ((Complex.arg z : ℂ) * Complex.I) = z := by
  have h : Real.sqrt (z.re * z.re + z.im * z.im) = Complex.abs z := by
    rw [Complex.abs_apply, Complex.normSq_apply]
  rw [h, Complex.abs_mul_exp_arg_mul_I]

/-- The epicycle fold is the componentwise sum of the individual epicycle
contributions added to the start point. -/
theorem drawEpicycles_eq_sum (rot time : ℝ) (comps : List FourierComponent) :
    ∀ x y : ℝ, drawEpicycles x y rot comps time
      = (x + (comps.map
            (fun c => c.amp * Real.cos ((c.freq : ℝ) * time + c.phase + rot))).sum,
         y + (comps.map
            (fun c => c.amp * Real.sin ((c.freq : ℝ) * time + c.phase + rot))).sum) := by
  induction comps with
  | nil =>
    intro x y
    simp [drawEpicycles]
  | cons c rest ih =>
    intro x y
    have hstep : drawEpicycles x y rot (c :: rest) time
        = drawEpicycles (x + c.amp * Real.cos ((c.freq : ℝ) * time + c.phase + rot))
            (y + c.amp * Real.sin ((c.freq : ℝ) * time + c.phase + rot))
            rot rest time := rfl
    rw [hstep, ih]
    simp only [List.map_cons, List.sum_cons, Prod.mk.injEq]
    constructor <;> ring

/-- The cosine sum of the epicycle contributions is the real part of the
corresponding complex sum. -/
theorem sum_amp_cos_eq_re (t rot : ℝ) (comps : List FourierComponent) :
    (comps.map (fun c => c.amp * Real.cos ((c.freq : ℝ) * t + c.phase + rot))).sum
      = ((comps.map (fun c => (c.amp : ℂ)
          * Complex.exp ((((c.freq : ℝ) * t + c.phase + rot : ℝ) : ℂ)
              * Complex.I))).sum).re := by
  induction comps with
  | nil => simp
  | cons c rest ih =>
    simp only [List.map_cons, List.sum_cons, Complex.add_re, ih,
      Complex.re_ofReal_mul, Complex.exp_ofReal_mul_I_re]

/-- The sine sum of the epicycle contributions is the imaginary part of the
corresponding complex sum. -/
theorem sum_amp_sin_eq_im (t rot : ℝ) (comps : List FourierComponent) :
    (comps.map (fun c => c.amp * Real.sin ((c.freq : ℝ) * t + c.phase + rot))).sum
      = ((comps.map (fun c => (c.amp : ℂ)
          * Complex.exp ((((c.freq : ℝ) * t + c.phase + rot : ℝ) : ℂ)
              * Complex.I))).sum).im := by
  induction comps with
  | nil => simp
  | cons c rest ih =>
    simp only [List.map_cons, List.sum_cons, Complex.add_im, ih,
      Complex.im_ofReal_mul, Complex.exp_ofReal_mul_I_im]

/-- The complex epicycle contribution of bin `k` collapses, via
`amp * e^(i*phase) = X_k`, to the bin value times `e^(i*k*t)`. -/
theorem dftEntry_term (pts : List ℂ) (k : ℕ) (t : ℝ) :
    ((dftEntry pts k).amp : ℂ)
        * Complex.exp (((((dftEntry pts k).freq : ℝ) * t
            + (dftEntry pts k).phase + 0 : ℝ) : ℂ) * Complex.I)
      = dftCoeff pts k * Complex.exp ((((k : ℝ) * t : ℝ) : ℂ) * Complex.I) := by
  unfold dftEntry
  dsimp only
  have hsplit : ((((k : ℕ) : ℝ) * t + Complex.arg (dftCoeff pts k) + 0 : ℝ) : ℂ)
        * Complex.I
      = (Complex.arg (dftCoeff pts k) : ℂ) * Complex.I
        + (((k : ℝ) * t : ℝ) : ℂ) * Complex.I := by
    push_cast
    ring
  rw [hsplit, Complex.exp_add, ← mul_assoc, amp_phase_restore]

/-- Each addend of the DFT inner loop in exponential form. -/
theorem dftTerm_exp (pts : List ℂ) (k n : ℕ) :
    dftTerm pts k n = pts.getD n 0
        * Complex.exp (-((Real.pi * 2 * k * n / pts.length : ℝ) : ℂ)
            * Complex.I) := by
  unfold dftTerm
  dsimp only
  rw [mk_cos_neg_sin]

/-- The componentwise normalisation of the source equals complex division by
the real number N. -/
theorem dftCoeff_eq_div (pts : List ℂ) (k : ℕ) :
    dftCoeff pts k = dftSum pts k / ((pts.length : ℝ) : ℂ) := by
  unfold dftCoeff
  dsimp only
  apply Complex.ext
  · rw [Complex.div_ofReal_re]
  · rw [Complex.div_ofReal_im]

/-- Sum over `List.range` as a `Finset.range` sum. -/
theorem list_range_map_sum {M : Type*} [AddCommMonoid M] (n : ℕ) (f : ℕ → M) :
    ((List.range n).map f).sum = ∑ k ∈ Finset.range n, f k := by
  induction n with
  | zero => simp
  | succ m ih =>
    rw [List.range_succ, List.map_append, List.sum_append,
      Finset.sum_range_succ, ih]
    simp

/-- Root-of-unity cancellation: for a nonzero frequency offset `j` of absolute
value less than `N`, the `N` evenly spaced unit vectors `e^(2*pi*i*j*k/N)`
sum to zero. -/
theorem sum_exp_rot_zero (N : ℕ) (j : ℤ) (hj : j ≠ 0) (hjabs : |j| < (N : ℤ)) :
    ∑ k ∈ Finset.range N,
        Complex.exp (((2 * Real.pi * j * k / N : ℝ) : ℂ) * Complex.I) = 0 := by
  have hN : 0 < N := by
    have h1 : 1 ≤ |j| := Int.one_le_abs hj
    omega
  have hNR : ((N : ℝ)) ≠ 0 := Nat.cast_ne_zero.mpr (by omega)
  have hNC : ((N : ℕ) : ℂ) ≠ 0 := Nat.cast_ne_zero.mpr (by omega)
  set z : ℂ := Complex.exp (((2 * Real.pi * j / N : ℝ) : ℂ) * Complex.I) with hz
  have hterm : ∀ k ∈ Finset.range N,
      Complex.exp (((2 * Real.pi * j * k / N : ℝ) : ℂ) * Complex.I) = z ^ k := by
    intro k _
    rw [hz, ← Complex.exp_nat_mul]
    congr 1
    push_cast
    ring
  rw [Finset.sum_congr rfl hterm]
  have hzN : z ^ N = 1 := by
    rw [hz, ← Complex.exp_nat_mul]
    have harg : (N : ℂ) * (((2 * Real.pi * j / N : ℝ) : ℂ) * Complex.I)
        = (j : ℂ) * (2 * (Real.pi : ℂ) * Complex.I) := by
      push_cast
      field_simp [hNC]
      ring
    rw [harg]
    exact Complex.exp_int_mul_two_pi_mul_I j
  have hz1 : z ≠ 1 := by
    rw [hz]
    intro hcon
    rw [Complex.exp_eq_one_iff] at hcon
    obtain ⟨c, hc⟩ := hcon
    have hc' : ((2 * Real.pi * j / N : ℝ) : ℂ) * Complex.I
        = (((c : ℝ) * (2 * Real.pi) : ℝ) : ℂ) * Complex.I := by
      rw [hc]
      push_cast
      ring
    have hre : (2 * Real.pi * j / N : ℝ) = (c : ℝ) * (2 * Real.pi) :=
      Complex.ofReal_inj.mp (mul_right_cancel₀ Complex.I_ne_zero hc')
    have h2pi : (2 * Real.pi) ≠ 0 := by positivity
    have h2 : (j : ℝ) / N = (c : ℝ) := by
      apply mul_left_cancel₀ h2pi
      calc 2 * Real.pi * ((j : ℝ) / N) = 2 * Real.pi * j / N := by ring
        _ = (c : ℝ) * (2 * Real.pi) := hre
        _ = 2 * Real.pi * c := by ring
    have h3 : (j : ℝ) = (c : ℝ) * N := by
      rw [← h2]
      field_simp
    have h4 : j = c * N := by exact_mod_cast h3
    have hc0 : c ≠ 0 := by
      intro h0
      rw [h0, zero_mul] at h4
      exact hj h4
    have habs : (N : ℤ) ≤ |j| := by
      calc (N : ℤ) = 1 * N := (one_mul _).symm
        _ ≤ |c| * N := by
          apply mul_le_mul_of_nonneg_right (Int.one_le_abs hc0)
          positivity
        _ = |c| * |(N : ℤ)| := by
          rw [abs_of_nonneg (by positivity : (0:ℤ) ≤ (N:ℤ))]
        _ = |c * N| := (abs_mul c N).symm
        _ = |j| := by rw [h4]
    exact absurd hjabs (not_lt.mpr habs)
  rw [geom_sum_eq hz1, hzN, sub_self, zero_div]

/-- DFT/IDFT identity in complex form: summing all normalised bins against
`e^(i*k*t_n)` at the n-th sample time recovers the n-th input point. -/
theorem sum_dftCoeff_mul_exp (pts : List ℂ) (n : ℕ) (hn : n < pts.length) :
    ∑ k ∈ Finset.range pts.length,
        dftCoeff pts k
          * Complex.exp ((((k : ℝ) * (Real.pi * 2 * n / pts.length) : ℝ) : ℂ)
              * Complex.I)
      = pts.getD n 0 := by
  have hNR : ((pts.length : ℝ)) ≠ 0 := Nat.cast_ne_zero.mpr (by omega)
  have hNC : (((pts.length : ℝ)) : ℂ) ≠ 0 := by
    exact_mod_cast hNR
  have hterm : ∀ k ∈ Finset.range pts.length,
      dftCoeff pts k
          * Complex.exp ((((k : ℝ) * (Real.pi * 2 * n / pts.length) : ℝ) : ℂ)
              * Complex.I)
        = (∑ m ∈ Finset.range pts.length, pts.getD m 0
            * Complex.exp (((Real.pi * 2 * ((n : ℝ) - m) * k / pts.length : ℝ) : ℂ)
                * Complex.I)) / ((pts.length : ℝ) : ℂ) := by
    intro k _
    rw [dftCoeff_eq_div]
    unfold dftSum
    rw [div_mul_eq_mul_div, Finset.sum_mul]
    congr 1
    apply Finset.sum_congr rfl
    intro m _
    rw [dftTerm_exp, mul_assoc, ← Complex.exp_add]
    congr 2
    push_cast
    ring
  rw [Finset.sum_congr rfl hterm, ← Finset.sum_div, Finset.sum_comm]
  have hswap : ∀ m ∈ Finset.range pts.length,
      (∑ k ∈ Finset.range pts.length, pts.getD m 0
          * Complex.exp (((Real.pi * 2 * ((n : ℝ) - m) * k / pts.length : ℝ) : ℂ)
              * Complex.I))
        = if m = n then pts.getD m 0 * ((pts.length : ℝ) : ℂ) else 0 := by
    intro m hm
    by_cases hmn : m = n
    · rw [if_pos hmn, hmn]
      have hone : ∀ k ∈ Finset.range pts.length,
          pts.getD n 0
              * Complex.exp (((Real.pi * 2 * ((n : ℝ) - n) * k / pts.length : ℝ) : ℂ)
                  * Complex.I)
            = pts.getD n 0 := by
        intro k _
        rw [show (Real.pi * 2 * ((n : ℝ) - n) * k / pts.length : ℝ) = 0 by ring,
          Complex.ofReal_zero, zero_mul, Complex.exp_zero, mul_one]
      rw [Finset.sum_congr rfl hone, Finset.sum_const, Finset.card_range,
        nsmul_eq_mul]
      push_cast
      ring
    · rw [if_neg hmn]
      have hzero : ∑ k ∈ Finset.range pts.length,
          Complex.exp (((Real.pi * 2 * ((n : ℝ) - m) * k / pts.length : ℝ) : ℂ)
              * Complex.I) = 0 := by
        have hshape : ∀ k ∈ Finset.range pts.length,
            Complex.exp (((Real.pi * 2 * ((n : ℝ) - m) * k / pts.length : ℝ) : ℂ)
                * Complex.I)
              = Complex.exp (((2 * Real.pi * (((n : ℤ) - m) : ℤ) * k
                  / pts.length : ℝ) : ℂ) * Complex.I) := by
          intro k _
          congr 2
          push_cast
          ring
        rw [Finset.sum_congr rfl hshape]
        apply sum_exp_rot_zero
        · intro hcon
          apply hmn
          omega
        · have hnlt : n < pts.length := hn
          have hmlt : m < pts.length := Finset.mem_range.mp hm
          rw [abs_lt]
          constructor <;> omega
      rw [← Finset.mul_sum, hzero, mul_zero]
  rw [Finset.sum_congr rfl hswap, Finset.sum_ite_eq' (Finset.range pts.length) n,
    if_pos (Finset.mem_range.mpr hn), mul_div_cancel_right₀ _ hNC]

/-- Claim C1: DFT round-trip. For any drawn point list and any reordering of
its spectral components (in particular the amplitude-descending sort performed
by `computeDFT`, which is a permutation), evaluating the epicycle sum from the
origin with rotation 0 at the n-th sample time `t_n = 2*pi*n/N` reproduces the
n-th input point exactly in real arithmetic. -/
theorem dft_roundtrip (pts : List ℂ) (comps : List FourierComponent)
    (hperm : comps.Perm (dft pts)) (n : ℕ) (hn : n < pts.length) :
    drawEpicycles 0 0 0 comps (Real.pi * 2 * n / pts.length)
      = ((pts.getD n 0).re, (pts.getD n 0).im) := by
  set t := Real.pi * 2 * (n : ℝ) / pts.length with ht
  rw [drawEpicycles_eq_sum]
  have hc : (comps.map
        (fun c => c.amp * Real.cos ((c.freq : ℝ) * t + c.phase + 0))).sum
      = ((dft pts).map
        (fun c => c.amp * Real.cos ((c.freq : ℝ) * t + c.phase + 0))).sum :=
    (hperm.map _).sum_eq
  have hs : (comps.map
        (fun c => c.amp * Real.sin ((c.freq : ℝ) * t + c.phase + 0))).sum
      = ((dft pts).map
        (fun c => c.amp * Real.sin ((c.freq : ℝ) * t + c.phase + 0))).sum :=
    (hperm.map _).sum_eq
  rw [hc, hs, sum_amp_cos_eq_re, sum_amp_sin_eq_im]
  have hW : ((dft pts).map (fun c => (c.amp : ℂ)
      * Complex.exp ((((c.freq : ℝ) * t + c.phase + 0 : ℝ) : ℂ)
          * Complex.I))).sum = pts.getD n 0 := by
    unfold dft
    rw [List.map_map, list_range_map_sum]
    have hentry : ∀ k ∈ Finset.range pts.length,
        ((fun c => (c.amp : ℂ)
            * Complex.exp ((((c.freq : ℝ) * t + c.phase + 0 : ℝ) : ℂ)
                * Complex.I)) ∘ dftEntry pts) k
          = dftCoeff pts k
              * Complex.exp ((((k : ℝ) * t : ℝ) : ℂ) * Complex.I) := by
      intro k _
      exact dftEntry_term pts k t
    rw [Finset.sum_congr rfl hentry, ht]
    exact sum_dftCoeff_mul_exp pts n hn
  rw [hW]
  simp

/-- Witness for C1: the one-point drawing [(100, 50)] is reproduced exactly at
its single sample time by the epicycle reconstruction of its own transform
(the identity permutation of the components). -/
theorem dft_roundtrip_witness :
    drawEpicycles 0 0 0 (dft [Complex.mk 100 50])
        (Real.pi * 2 * ((0 : ℕ) : ℝ) / (([Complex.mk 100 50] : List ℂ).length : ℝ))
      = ((([Complex.mk 100 50] : List ℂ).getD 0 0).re,
         (([Complex.mk 100 50] : List ℂ).getD 0 0).im) :=
  dft_roundtrip [Complex.mk 100 50] (dft [Complex.mk 100 50])
    (List.Perm.refl _) 0 (by norm_num)

end Portfolio
